import Mathlib

/-!
Shallow embedding of `src/parameters_pack.hpp` (namespace `iso`, class
`parameters_pack`).

A C++ parameter pack of compile-time constants is modelled as a
`List (Param Val)`: each element carries its static type as a tag
`ty : Ty` and its value `val : Val ty`.  Exact static type identity in
the C++ source (template-argument deduction, which never applies
implicit conversions) is modelled as decidable equality of tags: two
distinct tags are distinct static types, whether or not the value
spaces attached to them admit conversions.

Each Lean function mirrors one overload set of the source:
* `list_contains_param_v` / `params_types_v` — members of
  `check_v<TypeFirst, TypesRest...>` (lines 53–73);
* `check` — `types<TypeFirst, TypesRest...>::check` (lines 114–119);
* `is_same_v` / `is_duplicates_v` — members of `duplicate`
  (lines 75–84);
* `no_duplicates` — lines 127–131;
* `extract` — `value<Type, defaultValue>::extract` (lines 97–103).
-/

namespace iso

universe u v

variable {Ty : Type u} [DecidableEq Ty] (Val : Ty → Type v)

/-- A pack element: a compile-time constant `val` tagged with its static
type `ty`. -/
structure Param where
  ty : Ty
  val : Val ty

/-- Builds a pack element; convenience constructor used at call sites. -/
def pp (t : Ty) (v : Val t) : Param Val := ⟨t, v⟩

/-- Member `check_v<TypeFirst, TypesRest...>::list_contains_param_v`.
The allowed type list is the non-empty list `tyFirst :: tysRest`.  The
non-template overload `list_contains_param_v(const TypeFirst)` accepts a
value exactly when its static type is `TypeFirst` (an exact-match
template overload beats it otherwise); the template overload recurses
into `check_v<TypesRest...>`; the single-type specialisation returns
`false` for any non-matching type. -/
def list_contains_param_v (tyFirst : Ty) (tysRest : List Ty) (vty : Ty) : Bool :=
  match tysRest with
  | [] => decide (vty = tyFirst)
  | t :: ts => if vty = tyFirst then true else list_contains_param_v t ts vty

/-- Member `check_v<...>::params_types_v`: the nullary overload returns
`true`; the variadic overload tests the head against the allowed list
and recurses on the tail, propagating `false`. -/
def params_types_v (tyFirst : Ty) (tysRest : List Ty) : List (Param Val) → Bool
  | [] => true
  | first :: rest =>
      if list_contains_param_v tyFirst tysRest first.ty then
        params_types_v tyFirst tysRest rest
      else false

/-- `types<TypeFirst, TypesRest...>::check`: the nullary overload
returns `true`; the variadic overload delegates to
`check_v<TypeFirst, TypesRest...>::params_types_v`. -/
def check (tyFirst : Ty) (tysRest : List Ty) : List (Param Val) → Bool
  | [] => true
  | first :: rest => params_types_v Val tyFirst tysRest (first :: rest)

/-- Member `duplicate::is_same_v`: the overload on two values of one
type `T` returns `true` regardless of the values; deduction on two
distinct types selects the two-type overload, which returns `false`. -/
def is_same_v (p q : Param Val) : Bool :=
  decide (p.ty = q.ty)

/-- Member `duplicate::is_duplicates_v`: `true` on empty and singleton
packs; otherwise the head is compared against every tail element via the
fold expression `(!is_same_v(first, rest) && ...)`, conjoined with the
recursive call on the tail. -/
def is_duplicates_v : List (Param Val) → Bool
  | [] => true
  | [_] => true
  | first :: rest =>
      (rest.all fun r => !is_same_v Val first r) && is_duplicates_v rest

/-- `parameters_pack::no_duplicates`: `true` on empty and singleton
packs; otherwise delegates to `duplicate::is_duplicates_v`. -/
def no_duplicates : List (Param Val) → Bool
  | [] => true
  | [_] => true
  | first :: rest => is_duplicates_v Val (first :: rest)

/-- `value<Type, defaultValue>::extract`: the nullary overload returns
`defaultValue`; the singleton overloads return the element when its
static type is exactly `Type` (partial ordering prefers the exact-typed
overload) and `defaultValue` otherwise; the variadic overloads return
the head when its type is exactly `Type` and recurse on the tail
otherwise. -/
def extract (target : Ty) (defaultValue : Val target) :
    List (Param Val) → Val target
  | [] => defaultValue
  | [first] =>
      if h : first.ty = target then h ▸ first.val else defaultValue
  | first :: rest =>
      if h : first.ty = target then h ▸ first.val
      else extract target defaultValue rest

/-- Models the defaulted template argument
`const Type defaultValue = Type\x7b\x7d` of `value`: when the caller
supplies no default, the target type's default-constructed value is
used. -/
def extract_default (target : Ty) [Inhabited (Val target)] :
    List (Param Val) → Val target :=
  extract Val target default

/-! Fuel-indexed variants: each recursive overload set consumes one unit
of fuel per pack element it recurses past, and returns `none` when the
fuel runs out before a base case is reached.  They make the bounded
recursion depth of the source measurable: fuel `pack.length` always
suffices. -/

/-- Fuel-indexed `types::check` composed with
`check_v::params_types_v`. -/
def checkFuel (tyFirst : Ty) (tysRest : List Ty) :
    Nat → List (Param Val) → Option Bool
  | _, [] => some true
  | 0, _ :: _ => none
  | fuel + 1, first :: rest =>
      if list_contains_param_v tyFirst tysRest first.ty then
        checkFuel tyFirst tysRest fuel rest
      else some false

/-- Fuel-indexed `no_duplicates` composed with
`duplicate::is_duplicates_v`. -/
def noDuplicatesFuel : Nat → List (Param Val) → Option Bool
  | _, [] => some true
  | _, [_] => some true
  | 0, _ :: _ :: _ => none
  | fuel + 1, first :: second :: rest2 =>
      match noDuplicatesFuel fuel (second :: rest2) with
      | none => none
      | some b =>
          some (((second :: rest2).all fun r => !is_same_v Val first r) && b)

/-- Fuel-indexed `value::extract`. -/
def extractFuel (target : Ty) (d : Val target) :
    Nat → List (Param Val) → Option (Val target)
  | _, [] => some d
  | _, [first] => some (if h : first.ty = target then h ▸ first.val else d)
  | 0, _ :: _ :: _ => none
  | fuel + 1, first :: second :: rest2 =>
      if h : first.ty = target then some (h ▸ first.val)
      else extractFuel target d fuel (second :: rest2)

end iso

namespace iso

/-! A concrete instantiation in the style of the repository's motivating
GPIO example: three configuration types `InputV`, `PullV`, `DriveV`
addressed by the tags of `GpioTy`.  Used to evaluate the general
theorems on concrete packs. -/

inductive GpioTy
  | input
  | pull
  | drive
  deriving DecidableEq

inductive InputV
  | connect
  | disconnect
  deriving DecidableEq, Inhabited

inductive PullV
  | no
  | up
  | down
  deriving DecidableEq, Inhabited

inductive DriveV
  | s0s1
  | sos1
  deriving DecidableEq, Inhabited

/-- The value space attached to each tag. -/
def GpioVal : GpioTy → Type
  | .input => InputV
  | .pull => PullV
  | .drive => DriveV

instance (t : GpioTy) : DecidableEq (GpioVal t) :=
  match t with
  | .input => inferInstanceAs (DecidableEq InputV)
  | .pull => inferInstanceAs (DecidableEq PullV)
  | .drive => inferInstanceAs (DecidableEq DriveV)

instance (t : GpioTy) : Inhabited (GpioVal t) :=
  match t with
  | .input => inferInstanceAs (Inhabited InputV)
  | .pull => inferInstanceAs (Inhabited PullV)
  | .drive => inferInstanceAs (Inhabited DriveV)

end iso

namespace iso

/-! Uniform cons-step equations: the singleton overloads of the source
coincide with one unfolding of the variadic overloads, so each function
satisfies a single head/tail recurrence used by the proofs below. -/

variable {Ty : Type u} [DecidableEq Ty] (Val : Ty → Type v)

theorem params_types_v_cons (tyFirst : Ty) (tysRest : List Ty)
    (first : Param Val) (rest : List (Param Val)) :
    params_types_v Val tyFirst tysRest (first :: rest) =
      if list_contains_param_v tyFirst tysRest first.ty then
        params_types_v Val tyFirst tysRest rest
      else false := rfl

theorem check_eq_params_types_v (tyFirst : Ty) (tysRest : List Ty)
    (pack : List (Param Val)) :
    check Val tyFirst tysRest pack = params_types_v Val tyFirst tysRest pack := by
  cases pack <;> rfl

theorem is_duplicates_v_cons (first : Param Val) (rest : List (Param Val)) :
    is_duplicates_v Val (first :: rest) =
      ((rest.all fun r => !is_same_v Val first r) && is_duplicates_v Val rest) := by
  cases rest <;> simp [is_duplicates_v]

theorem no_duplicates_eq_is_duplicates_v (pack : List (Param Val)) :
    no_duplicates Val pack = is_duplicates_v Val pack := by
  cases pack with
  | nil => rfl
  | cons first rest => cases rest <;> rfl

theorem extract_cons (target : Ty) (d : Val target) (first : Param Val)
    (rest : List (Param Val)) :
    extract Val target d (first :: rest) =
      if h : first.ty = target then h ▸ first.val
      else extract Val target d rest := by
  cases rest <;> rfl

/-! Characterisation lemmas: each operation is related to its
mathematical description (membership, nodup of the tag sequence,
first match). -/

theorem list_contains_param_v_iff (tyFirst : Ty) (tysRest : List Ty) (vty : Ty) :
    list_contains_param_v tyFirst tysRest vty = true ↔ vty ∈ tyFirst :: tysRest := by
  induction tysRest generalizing tyFirst with
  | nil => simp [list_contains_param_v]
  | cons t ts ih =>
      by_cases h : vty = tyFirst
      · simp [list_contains_param_v, h]
      · simp [list_contains_param_v, h, ih t]

theorem params_types_v_iff (tyFirst : Ty) (tysRest : List Ty)
    (pack : List (Param Val)) :
    params_types_v Val tyFirst tysRest pack = true ↔
      ∀ p ∈ pack, p.ty ∈ tyFirst :: tysRest := by
  induction pack with
  | nil => simp [params_types_v]
  | cons first rest ih =>
      rw [params_types_v_cons]
      by_cases h : first.ty ∈ tyFirst :: tysRest
      · have hb : list_contains_param_v tyFirst tysRest first.ty = true :=
          (list_contains_param_v_iff _ _ _).mpr h
        rw [if_pos hb, ih, List.forall_mem_cons]
        simp [h]
      · have hb : ¬ list_contains_param_v tyFirst tysRest first.ty = true :=
          fun hc => h ((list_contains_param_v_iff _ _ _).mp hc)
        rw [if_neg hb]
        simp only [Bool.false_eq_true, false_iff]
        intro hall
        exact h (hall first (List.mem_cons_self first rest))

theorem check_iff (tyFirst : Ty) (tysRest : List Ty) (pack : List (Param Val)) :
    check Val tyFirst tysRest pack = true ↔
      ∀ p ∈ pack, p.ty ∈ tyFirst :: tysRest := by
  rw [check_eq_params_types_v, params_types_v_iff]

theorem is_duplicates_v_iff (pack : List (Param Val)) :
    is_duplicates_v Val pack = true ↔ (pack.map fun p => p.ty).Nodup := by
  induction pack with
  | nil => simp [is_duplicates_v]
  | cons first rest ih =>
      rw [is_duplicates_v_cons]
      simp only [Bool.and_eq_true, List.all_eq_true, List.map_cons,
        List.nodup_cons, List.mem_map, ih, is_same_v, Bool.not_eq_true',
        decide_eq_false_iff_not]
      constructor
      · rintro ⟨h1, h2⟩
        exact ⟨fun ⟨q, hq, hty⟩ => h1 q hq hty.symm, h2⟩
      · rintro ⟨h1, h2⟩
        exact ⟨fun q hq hty => h1 ⟨q, hq, hty.symm⟩, h2⟩

theorem no_duplicates_iff (pack : List (Param Val)) :
    no_duplicates Val pack = true ↔ (pack.map fun p => p.ty).Nodup := by
  rw [no_duplicates_eq_is_duplicates_v, is_duplicates_v_iff]

theorem extract_of_find_eq_none (target : Ty) (d : Val target)
    (pack : List (Param Val))
    (h : pack.find? (fun p => decide (p.ty = target)) = none) :
    extract Val target d pack = d := by
  induction pack with
  | nil => rfl
  | cons first rest ih =>
      rw [List.find?_cons] at h
      rw [extract_cons]
      by_cases hf : first.ty = target
      · simp [decide_eq_true hf] at h
      · simp only [decide_eq_false hf] at h
        simp [hf, ih h]

theorem extract_of_find_eq_some (target : Ty) (d : Val target)
    (pack : List (Param Val)) (q : Param Val)
    (h : pack.find? (fun p => decide (p.ty = target)) = some q) :
    ∃ hq : q.ty = target, extract Val target d pack = hq ▸ q.val := by
  induction pack with
  | nil => simp at h
  | cons first rest ih =>
      rw [List.find?_cons] at h
      rw [extract_cons]
      by_cases hf : first.ty = target
      · simp only [decide_eq_true hf, Option.some.injEq] at h
        subst h
        exact ⟨hf, by simp [hf]⟩
      · simp only [decide_eq_false hf] at h
        obtain ⟨hq, he⟩ := ih h
        exact ⟨hq, by simp [hf, he]⟩

theorem bool_eq_of_iff {a b : Bool} (h : a = true ↔ b = true) : a = b := by
  cases a <;> cases b <;> simp_all

theorem check_eq_all_map (tyFirst : Ty) (tysRest : List Ty)
    (pack : List (Param Val)) :
    check Val tyFirst tysRest pack =
      (pack.map fun p => p.ty).all (list_contains_param_v tyFirst tysRest) := by
  rw [check_eq_params_types_v]
  induction pack with
  | nil => rfl
  | cons first rest ih =>
      rw [params_types_v_cons, List.map_cons, List.all_cons, ih]
      cases hb : list_contains_param_v tyFirst tysRest first.ty <;> simp [hb]

theorem check_perm (tyFirst : Ty) (tysRest : List Ty)
    (pack1 pack2 : List (Param Val)) (hp : pack1.Perm pack2) :
    check Val tyFirst tysRest pack1 = check Val tyFirst tysRest pack2 := by
  apply bool_eq_of_iff
  rw [check_iff, check_iff]
  exact ⟨fun H p hp2 => H p (hp.mem_iff.mpr hp2),
    fun H p hp1 => H p (hp.mem_iff.mp hp1)⟩

theorem no_duplicates_perm (pack1 pack2 : List (Param Val))
    (hp : pack1.Perm pack2) :
    no_duplicates Val pack1 = no_duplicates Val pack2 := by
  apply bool_eq_of_iff
  rw [no_duplicates_iff, no_duplicates_iff]
  exact (hp.map fun p => p.ty).nodup_iff

theorem extract_congr_of_find_eq (target : Ty) (d : Val target)
    (pack1 pack2 : List (Param Val))
    (h : pack1.find? (fun p => decide (p.ty = target)) =
         pack2.find? (fun p => decide (p.ty = target))) :
    extract Val target d pack1 = extract Val target d pack2 := by
  cases hf : pack1.find? (fun p => decide (p.ty = target)) with
  | none =>
      rw [extract_of_find_eq_none Val target d pack1 hf,
        extract_of_find_eq_none Val target d pack2 (h.symm.trans hf)]
  | some q =>
      obtain ⟨hq1, he1⟩ := extract_of_find_eq_some Val target d pack1 q hf
      obtain ⟨hq2, he2⟩ :=
        extract_of_find_eq_some Val target d pack2 q (h.symm.trans hf)
      rw [he1, he2]

theorem extract_of_no_match_aux (target : Ty) (d : Val target)
    (pack : List (Param Val)) (h : ∀ q ∈ pack, q.ty ≠ target) :
    extract Val target d pack = d := by
  induction pack with
  | nil => rfl
  | cons q rest ih =>
      rw [extract_cons, dif_neg (h q (List.mem_cons_self q rest))]
      exact ih fun r hr => h r (List.mem_cons_of_mem q hr)

theorem extract_mem_or_default (target : Ty) (d : Val target)
    (pack : List (Param Val)) :
    extract Val target d pack = d ∨
      ∃ v : Val target, (⟨target, v⟩ : Param Val) ∈ pack ∧
        extract Val target d pack = v := by
  induction pack with
  | nil => exact Or.inl rfl
  | cons q rest ih =>
      by_cases h : q.ty = target
      · right
        refine ⟨h ▸ q.val, ?_, ?_⟩
        · obtain ⟨t, v0⟩ := q
          cases h
          exact List.mem_cons_self _ _
        · rw [extract_cons, dif_pos h]
      · rw [extract_cons, dif_neg h]
        rcases ih with h1 | ⟨v, hv, he⟩
        · exact Or.inl h1
        · exact Or.inr ⟨v, List.mem_cons_of_mem q hv, he⟩

theorem checkFuel_eq (tyFirst : Ty) (tysRest : List Ty) (fuel : Nat)
    (pack : List (Param Val)) (h : pack.length ≤ fuel) :
    checkFuel Val tyFirst tysRest fuel pack =
      some (check Val tyFirst tysRest pack) := by
  induction pack generalizing fuel with
  | nil => cases fuel <;> rfl
  | cons first rest ih =>
      cases fuel with
      | zero => simp at h
      | succ n =>
          have hn : rest.length ≤ n := by
            simpa [Nat.succ_le_succ_iff] using h
          rw [check_eq_params_types_v, params_types_v_cons]
          simp only [checkFuel]
          by_cases hc : list_contains_param_v tyFirst tysRest first.ty
          · rw [if_pos hc, if_pos hc, ih n hn, check_eq_params_types_v]
          · rw [if_neg hc, if_neg hc]

theorem noDuplicatesFuel_eq (fuel : Nat) (pack : List (Param Val))
    (h : pack.length ≤ fuel) :
    noDuplicatesFuel Val fuel pack = some (no_duplicates Val pack) := by
  induction pack generalizing fuel with
  | nil => cases fuel <;> rfl
  | cons first rest ih =>
      cases rest with
      | nil => cases fuel <;> rfl
      | cons second rest2 =>
          cases fuel with
          | zero => simp at h
          | succ n =>
              have hn : (second :: rest2).length ≤ n := by
                simpa [Nat.succ_le_succ_iff] using h
              simp only [noDuplicatesFuel, ih n hn,
                no_duplicates_eq_is_duplicates_v, is_duplicates_v_cons]

theorem extractFuel_eq (target : Ty) (d : Val target) (fuel : Nat)
    (pack : List (Param Val)) (h : pack.length ≤ fuel) :
    extractFuel Val target d fuel pack = some (extract Val target d pack) := by
  induction pack generalizing fuel with
  | nil => cases fuel <;> rfl
  | cons first rest ih =>
      cases rest with
      | nil => cases fuel <;> rfl
      | cons second rest2 =>
          cases fuel with
          | zero => simp at h
          | succ n =>
              have hn : (second :: rest2).length ≤ n := by
                simpa [Nat.succ_le_succ_iff] using h
              rw [extract_cons]
              simp only [extractFuel]
              by_cases hf : first.ty = target
              · rw [dif_pos hf, dif_pos hf]
              · rw [dif_neg hf, dif_neg hf, ih n hn]

theorem extract_default_indep_aux (target : Ty) (d1 d2 : Val target)
    (pack : List (Param Val))
    (hv : ∃ v : Val target, (⟨target, v⟩ : Param Val) ∈ pack) :
    extract Val target d1 pack = extract Val target d2 pack := by
  obtain ⟨v, hv⟩ := hv
  induction pack with
  | nil => simp at hv
  | cons q rest ih =>
      rw [extract_cons, extract_cons]
      by_cases hq : q.ty = target
      · rw [dif_pos hq, dif_pos hq]
      · rw [dif_neg hq, dif_neg hq]
        apply ih
        rcases List.mem_cons.mp hv with he | hm
        · exact absurd (congrArg (fun p : Param Val => p.ty) he).symm hq
        · exact hm

/-! Claim theorems. -/

/-- Claim C1: for every pack of constant values and every non-empty
allowed type list `tyFirst :: tysRest`, `types::check` returns `true`
if and only if the static type of every pack element is present, by
exact type identity, in the allowed type list. -/
theorem check_true_iff_types_allowed (tyFirst : Ty) (tysRest : List Ty)
    (pack : List (Param Val)) :
    check Val tyFirst tysRest pack = true ↔
      ∀ p ∈ pack, p.ty ∈ tyFirst :: tysRest :=
  check_iff Val tyFirst tysRest pack

/-- Claim C2: `no_duplicates` returns `true` if and only if no two pack
elements share the same static type; only the type tags enter the
predicate, so two same-typed elements are a duplicate regardless of
their values, and a pack with pairwise distinct element types passes. -/
theorem no_duplicates_true_iff_pairwise_ty_ne (pack : List (Param Val)) :
    no_duplicates Val pack = true ↔
      pack.Pairwise fun p q => p.ty ≠ q.ty := by
  rw [no_duplicates_iff]
  exact List.pairwise_map

/-- Claim C3: when the pack decomposes as a prefix `l1` free of the
target type, a first target-typed element carrying `v`, and any
remainder `l2`, `value::extract` returns `v`: the first match in
left-to-right pack order wins, even when `l2` holds further elements of
the target type. -/
theorem extract_first_match (target : Ty) (d v : Val target)
    (l1 l2 : List (Param Val)) (h : ∀ q ∈ l1, q.ty ≠ target) :
    extract Val target d (l1 ++ ⟨target, v⟩ :: l2) = v := by
  induction l1 with
  | nil =>
      rw [List.nil_append, extract_cons]
      simp
  | cons q l1' ih =>
      rw [List.cons_append, extract_cons,
        dif_neg (h q (List.mem_cons_self q l1'))]
      exact ih fun r hr => h r (List.mem_cons_of_mem q hr)

/-- Claim C4: on a pack with no element of the target type,
`value::extract` returns the configured default verbatim; and when the
caller supplies no default, the defaulted template argument is the
target type's default-constructed value, which is then returned. -/
theorem extract_no_match_default (target : Ty) [Inhabited (Val target)]
    (d : Val target) (pack : List (Param Val))
    (h : ∀ q ∈ pack, q.ty ≠ target) :
    extract Val target d pack = d ∧
      extract_default Val target pack = (default : Val target) :=
  ⟨extract_of_no_match_aux Val target d pack h,
    extract_of_no_match_aux Val target default pack h⟩

/-- Claim C5: on the empty pack all three operations hit their identity
cases: `check` is `true` for any non-empty allowed list, `no_duplicates`
is `true`, and `extract` returns the configured default. -/
theorem empty_pack_identities (tyFirst : Ty) (tysRest : List Ty)
    (target : Ty) (d : Val target) :
    check Val tyFirst tysRest ([] : List (Param Val)) = true ∧
      no_duplicates Val ([] : List (Param Val)) = true ∧
      extract Val target d [] = d :=
  ⟨rfl, rfl, rfl⟩

/-- Claim C6: permuting the pack never changes the boolean results of
`check` and `no_duplicates`; `extract` is unchanged whenever the
permutation leaves the first target-typed element (the `find?` result on
the target type) the same. -/
theorem perm_invariance (tyFirst : Ty) (tysRest : List Ty)
    (pack1 pack2 : List (Param Val)) (hp : pack1.Perm pack2) :
    check Val tyFirst tysRest pack1 = check Val tyFirst tysRest pack2 ∧
      no_duplicates Val pack1 = no_duplicates Val pack2 ∧
      ∀ (target : Ty) (d : Val target),
        pack1.find? (fun p => decide (p.ty = target)) =
          pack2.find? (fun p => decide (p.ty = target)) →
        extract Val target d pack1 = extract Val target d pack2 :=
  ⟨check_perm Val tyFirst tysRest pack1 pack2 hp,
    no_duplicates_perm Val pack1 pack2 hp,
    fun target d hfind =>
      extract_congr_of_find_eq Val target d pack1 pack2 hfind⟩

/-- Claim C7: matching is exact static type identity, so any two
distinct type tags never match: an element of a type outside the allowed
list fails `check` whatever its value space, two elements of distinct
types are never a duplicate, and `extract` only ever returns the default
or the value of an element whose type is exactly the target. -/
theorem exact_type_identity (a : Ty) (tysRest : List Ty) (b : Ty)
    (hab : a ≠ b) (hnb : b ∉ a :: tysRest) (v : Val a) (w : Val b)
    (d : Val a) (pack : List (Param Val)) :
    check Val a tysRest [⟨b, w⟩] = false ∧
      is_same_v Val ⟨a, v⟩ ⟨b, w⟩ = false ∧
      no_duplicates Val [⟨a, v⟩, ⟨b, w⟩] = true ∧
      (extract Val a d pack = d ∨
        ∃ v' : Val a, (⟨a, v'⟩ : Param Val) ∈ pack ∧
          extract Val a d pack = v') := by
  refine ⟨?_, ?_, ?_, extract_mem_or_default Val a d pack⟩
  · have hnot : ¬ ∀ p ∈ ([⟨b, w⟩] : List (Param Val)), p.ty ∈ a :: tysRest :=
      fun hall => hnb (hall ⟨b, w⟩ (List.mem_cons_self _ _))
    cases hc : check Val a tysRest [⟨b, w⟩] with
    | false => rfl
    | true => exact absurd ((check_iff Val a tysRest _).mp hc) hnot
  · simp [is_same_v, hab]
  · rw [no_duplicates_eq_is_duplicates_v]
    simp [is_duplicates_v, is_same_v, hab]

/-- Claim C8: `check` and `no_duplicates` depend only on the sequence of
static types in the pack: two packs with position-by-position equal type
sequences and arbitrarily differing values get the same booleans. -/
theorem validation_value_independent (tyFirst : Ty) (tysRest : List Ty)
    (pack1 pack2 : List (Param Val))
    (h : pack1.map (fun p => p.ty) = pack2.map fun p => p.ty) :
    check Val tyFirst tysRest pack1 = check Val tyFirst tysRest pack2 ∧
      no_duplicates Val pack1 = no_duplicates Val pack2 := by
  constructor
  · rw [check_eq_all_map, check_eq_all_map, h]
  · apply bool_eq_of_iff
    rw [no_duplicates_iff, no_duplicates_iff, h]

/-- Claim C9: each operation is a structural recursion that reaches a
base case within `pack.length` recursive steps — fuel `pack.length`
already makes the fuel-indexed variants succeed — and each is total,
returning `some` boolean respectively `some` value of the target
type. -/
theorem structural_recursion_total (tyFirst : Ty) (tysRest : List Ty)
    (target : Ty) (d : Val target) (fuel : Nat) (pack : List (Param Val))
    (h : pack.length ≤ fuel) :
    checkFuel Val tyFirst tysRest fuel pack =
        some (check Val tyFirst tysRest pack) ∧
      noDuplicatesFuel Val fuel pack = some (no_duplicates Val pack) ∧
      extractFuel Val target d fuel pack =
        some (extract Val target d pack) :=
  ⟨checkFuel_eq Val tyFirst tysRest fuel pack h,
    noDuplicatesFuel_eq Val fuel pack h,
    extractFuel_eq Val target d fuel pack h⟩

/-- Claim C10: when the pack holds at least one element of the target
type, the result of `value::extract` does not depend on the configured
default: any two defaults give the same extracted value. -/
theorem extract_default_independent (target : Ty) (d1 d2 : Val target)
    (pack : List (Param Val))
    (h : ∃ v : Val target, (⟨target, v⟩ : Param Val) ∈ pack) :
    extract Val target d1 pack = extract Val target d2 pack :=
  extract_default_indep_aux Val target d1 d2 pack h

end iso

namespace iso

/-! Concrete evaluations of the claim theorems on GPIO-style packs. -/

/-- Claim C3, evaluated: in the pack
`(Input.connect, Pull.up, Pull.down, Drive.sos1)` the first `Pull`
element wins and `extract` returns `Pull.up`. -/
theorem extract_first_match_witness :
    (∀ q ∈ ([pp GpioVal GpioTy.input InputV.connect] :
        List (Param GpioVal)), q.ty ≠ GpioTy.pull) ∧
    extract GpioVal GpioTy.pull PullV.no
        ([pp GpioVal GpioTy.input InputV.connect] ++
          (⟨GpioTy.pull, PullV.up⟩ : Param GpioVal) ::
            [pp GpioVal GpioTy.pull PullV.down,
              pp GpioVal GpioTy.drive DriveV.sos1]) = PullV.up :=
  ⟨by decide,
    extract_first_match GpioVal GpioTy.pull PullV.no PullV.up _ _ (by decide)⟩

/-- Claim C4, evaluated: a pack without an `Input` element yields the
caller-supplied default `Input.disconnect`, and the default-constructed
default `Input.connect` when none is supplied. -/
theorem extract_no_match_default_witness :
    (∀ q ∈ ([pp GpioVal GpioTy.pull PullV.up,
        pp GpioVal GpioTy.drive DriveV.sos1] : List (Param GpioVal)),
        q.ty ≠ GpioTy.input) ∧
    extract GpioVal GpioTy.input InputV.disconnect
        [pp GpioVal GpioTy.pull PullV.up,
          pp GpioVal GpioTy.drive DriveV.sos1] = InputV.disconnect ∧
    extract_default GpioVal GpioTy.input
        [pp GpioVal GpioTy.pull PullV.up,
          pp GpioVal GpioTy.drive DriveV.sos1] = InputV.connect := by
  have h := extract_no_match_default GpioVal GpioTy.input InputV.disconnect
    [pp GpioVal GpioTy.pull PullV.up, pp GpioVal GpioTy.drive DriveV.sos1]
    (by decide)
  exact ⟨by decide, h.1, h.2⟩

/-- Claim C6, evaluated: swapping the two elements of the pack
`(Input.connect, Pull.up)` changes neither `check` nor `no_duplicates`,
and `extract` on target `Pull` (whose first match is the same unique
element) is unchanged as well. -/
theorem perm_invariance_witness :
    ([pp GpioVal GpioTy.input InputV.connect,
        pp GpioVal GpioTy.pull PullV.up] : List (Param GpioVal)).Perm
      [pp GpioVal GpioTy.pull PullV.up,
        pp GpioVal GpioTy.input InputV.connect] ∧
    check GpioVal GpioTy.input [GpioTy.pull, GpioTy.drive]
        [pp GpioVal GpioTy.input InputV.connect,
          pp GpioVal GpioTy.pull PullV.up] =
      check GpioVal GpioTy.input [GpioTy.pull, GpioTy.drive]
        [pp GpioVal GpioTy.pull PullV.up,
          pp GpioVal GpioTy.input InputV.connect] ∧
    no_duplicates GpioVal
        [pp GpioVal GpioTy.input InputV.connect,
          pp GpioVal GpioTy.pull PullV.up] =
      no_duplicates GpioVal
        [pp GpioVal GpioTy.pull PullV.up,
          pp GpioVal GpioTy.input InputV.connect] ∧
    extract GpioVal GpioTy.pull PullV.no
        [pp GpioVal GpioTy.input InputV.connect,
          pp GpioVal GpioTy.pull PullV.up] =
      extract GpioVal GpioTy.pull PullV.no
        [pp GpioVal GpioTy.pull PullV.up,
          pp GpioVal GpioTy.input InputV.connect] := by
  have h := perm_invariance GpioVal GpioTy.input [GpioTy.pull, GpioTy.drive]
    [pp GpioVal GpioTy.input InputV.connect, pp GpioVal GpioTy.pull PullV.up]
    [pp GpioVal GpioTy.pull PullV.up, pp GpioVal GpioTy.input InputV.connect]
    (List.Perm.swap _ _ _)
  exact ⟨List.Perm.swap _ _ _, h.1, h.2.1, h.2.2 GpioTy.pull PullV.no rfl⟩

/-- Claim C7, evaluated: with distinct tags `Pull` and `Drive`, a
`Drive` value fails membership in the allowed list `(Pull, Input)`, a
`Pull`/`Drive` pair is never a duplicate, and on the pack
`(Drive.s0s1)` extraction of `Pull` falls back to the default. -/
theorem exact_type_identity_witness :
    (GpioTy.pull ≠ GpioTy.drive ∧
      GpioTy.drive ∉ [GpioTy.pull, GpioTy.input]) ∧
    check GpioVal GpioTy.pull [GpioTy.input]
        [(⟨GpioTy.drive, DriveV.s0s1⟩ : Param GpioVal)] = false ∧
    is_same_v GpioVal ⟨GpioTy.pull, PullV.up⟩ ⟨GpioTy.drive, DriveV.s0s1⟩ =
      false ∧
    no_duplicates GpioVal
        [⟨GpioTy.pull, PullV.up⟩, ⟨GpioTy.drive, DriveV.s0s1⟩] = true ∧
    (extract GpioVal GpioTy.pull PullV.no
        [pp GpioVal GpioTy.drive DriveV.s0s1] = PullV.no ∨
      ∃ v' : GpioVal GpioTy.pull,
        (⟨GpioTy.pull, v'⟩ : Param GpioVal) ∈
            [pp GpioVal GpioTy.drive DriveV.s0s1] ∧
          extract GpioVal GpioTy.pull PullV.no
            [pp GpioVal GpioTy.drive DriveV.s0s1] = v') := by
  have h := exact_type_identity GpioVal GpioTy.pull [GpioTy.input]
    GpioTy.drive (by decide) (by decide) PullV.up DriveV.s0s1 PullV.no
    [pp GpioVal GpioTy.drive DriveV.s0s1]
  exact ⟨⟨by decide, by decide⟩, h.1, h.2.1, h.2.2.1, h.2.2.2⟩

/-- Claim C8, evaluated: the packs `(Pull.up, Drive.s0s1)` and
`(Pull.down, Drive.sos1)` share the type sequence `(Pull, Drive)` with
different values; `check` and `no_duplicates` agree on them. -/
theorem validation_value_independent_witness :
    ([pp GpioVal GpioTy.pull PullV.up,
        pp GpioVal GpioTy.drive DriveV.s0s1] :
          List (Param GpioVal)).map (fun p => p.ty) =
      ([pp GpioVal GpioTy.pull PullV.down,
          pp GpioVal GpioTy.drive DriveV.sos1] :
            List (Param GpioVal)).map (fun p => p.ty) ∧
    check GpioVal GpioTy.input [GpioTy.pull, GpioTy.drive]
        [pp GpioVal GpioTy.pull PullV.up,
          pp GpioVal GpioTy.drive DriveV.s0s1] =
      check GpioVal GpioTy.input [GpioTy.pull, GpioTy.drive]
        [pp GpioVal GpioTy.pull PullV.down,
          pp GpioVal GpioTy.drive DriveV.sos1] ∧
    no_duplicates GpioVal
        [pp GpioVal GpioTy.pull PullV.up,
          pp GpioVal GpioTy.drive DriveV.s0s1] =
      no_duplicates GpioVal
        [pp GpioVal GpioTy.pull PullV.down,
          pp GpioVal GpioTy.drive DriveV.sos1] := by
  have h := validation_value_independent GpioVal GpioTy.input
    [GpioTy.pull, GpioTy.drive]
    [pp GpioVal GpioTy.pull PullV.up, pp GpioVal GpioTy.drive DriveV.s0s1]
    [pp GpioVal GpioTy.pull PullV.down, pp GpioVal GpioTy.drive DriveV.sos1]
    rfl
  exact ⟨rfl, h.1, h.2⟩

/-- Claim C9, evaluated: on a three-element pack, fuel `3` lets every
fuel-indexed variant reach its base case and return `some` of the
unfuelled result. -/
theorem structural_recursion_total_witness :
    ([pp GpioVal GpioTy.input InputV.connect,
        pp GpioVal GpioTy.pull PullV.up,
        pp GpioVal GpioTy.drive DriveV.sos1] :
          List (Param GpioVal)).length ≤ 3 ∧
    checkFuel GpioVal GpioTy.input [GpioTy.pull, GpioTy.drive] 3
        [pp GpioVal GpioTy.input InputV.connect,
          pp GpioVal GpioTy.pull PullV.up,
          pp GpioVal GpioTy.drive DriveV.sos1] = some true ∧
    noDuplicatesFuel GpioVal 3
        [pp GpioVal GpioTy.input InputV.connect,
          pp GpioVal GpioTy.pull PullV.up,
          pp GpioVal GpioTy.drive DriveV.sos1] = some true ∧
    extractFuel GpioVal GpioTy.pull PullV.no 3
        [pp GpioVal GpioTy.input InputV.connect,
          pp GpioVal GpioTy.pull PullV.up,
          pp GpioVal GpioTy.drive DriveV.sos1] = some PullV.up := by
  have h := structural_recursion_total GpioVal GpioTy.input
    [GpioTy.pull, GpioTy.drive] GpioTy.pull PullV.no 3
    [pp GpioVal GpioTy.input InputV.connect,
      pp GpioVal GpioTy.pull PullV.up,
      pp GpioVal GpioTy.drive DriveV.sos1]
    (by decide)
  exact ⟨by decide, h.1, h.2.1, h.2.2⟩

/-- Claim C10, evaluated: on the pack `(Input.connect, Pull.up)` the
extraction of `Pull` is the same under the defaults `Pull.no` and
`Pull.down`. -/
theorem extract_default_independent_witness :
    ((⟨GpioTy.pull, PullV.up⟩ : Param GpioVal) ∈
        [pp GpioVal GpioTy.input InputV.connect,
          pp GpioVal GpioTy.pull PullV.up]) ∧
    extract GpioVal GpioTy.pull PullV.no
        [pp GpioVal GpioTy.input InputV.connect,
          pp GpioVal GpioTy.pull PullV.up] =
      extract GpioVal GpioTy.pull PullV.down
        [pp GpioVal GpioTy.input InputV.connect,
          pp GpioVal GpioTy.pull PullV.up] :=
  ⟨List.mem_cons_of_mem _ (List.mem_cons_self _ _),
    extract_default_independent GpioVal GpioTy.pull PullV.no PullV.down
      [pp GpioVal GpioTy.input InputV.connect,
        pp GpioVal GpioTy.pull PullV.up]
      ⟨PullV.up, List.mem_cons_of_mem _ (List.mem_cons_self _ _)⟩⟩

end iso
